import Mathlib

/-!
Verification development for the autoscale-handler core
(`src/core/autoscale-handler.js`, `src/core/cloud-platform.js`).

JavaScript strings are embedded as `List Char`; `undefined`/`null`-able
string values as `Option (List Char)`; exceptions as `Except JsErr`.
The JavaScript regular expressions used by the code are transliterated
into a small regex AST (`Rx`) and run by a backtracking matcher
(`mrun` / `rexec`) that mirrors the ECMAScript semantics of the
constructs these expressions use: leftmost match, greedy quantifiers
with backtracking, a single capturing group, `\b` word boundaries, and
`^` anchored to the start of input (no `m` flag).
-/

set_option maxRecDepth 100000
set_option maxHeartbeats 8000000

namespace Fgas

/-- ECMAScript `\s`: tab, line terminators, form feed, vertical tab,
space, NBSP, BOM and the Unicode space separators. -/
def isJsSpace (c : Char) : Bool :=
  c = ' ' || c = '\t' || c = '\n' || c = '\r' ||
  c = Char.ofNat 11 || c = Char.ofNat 12 ||
  c = Char.ofNat 0xa0 || c = Char.ofNat 0x1680 ||
  (0x2000 ≤ c.toNat && c.toNat ≤ 0x200a) ||
  c = Char.ofNat 0x2028 || c = Char.ofNat 0x2029 ||
  c = Char.ofNat 0x202f || c = Char.ofNat 0x205f ||
  c = Char.ofNat 0x3000 || c = Char.ofNat 0xfeff

/-- ECMAScript `.` (without the `s` flag): any char except line terminators. -/
def isJsDot (c : Char) : Bool :=
  !(c = '\n' || c = '\r' || c = Char.ofNat 0x2028 || c = Char.ofNat 0x2029)

/-- ECMAScript word character for `\b`: `[A-Za-z0-9_]`. -/
def isWordChar (c : Char) : Bool :=
  c.isAlphanum || c = '_'

/-- Regex AST covering exactly the constructs appearing in the source's
regular expressions.  Stars and pluses only ever quantify a single
character class there, so they are primitives over a class. -/
inductive Rx where
  | eps : Rx
  | lit : List Char → Rx
  | cls : (Char → Bool) → Rx
  | starCls : (Char → Bool) → Rx
  | plusCls : (Char → Bool) → Rx
  | opt : Rx → Rx
  | alt : Rx → Rx → Rx
  | seq : Rx → Rx → Rx
  | group : Rx → Rx
  | wordB : Rx
  | lineStart : Rx

/-- Is position `i` preceded by a word character? (`false` at position 0.) -/
def wordBefore (s : List Char) (i : Nat) : Bool :=
  match i with
  | 0 => false
  | j + 1 => ((s.get? j).map isWordChar).getD false

/-- ECMAScript `\b` at position `i` of `s`. -/
def wordBoundaryAt (s : List Char) (i : Nat) : Bool :=
  wordBefore s i != ((s.get? i).map isWordChar).getD false

/-- Greedy backtracking for a class star: try `k` at `i + n`, `i + n - 1`,
…, `i`, in that order (longest first). -/
def tryStar (k : Nat → Option α) (i : Nat) : Nat → Option α
  | 0 => k i
  | n + 1 => (k (i + n + 1)).orElse (fun _ => tryStar k i n)

/-- Greedy backtracking for a class plus: like `tryStar` but at least one
character must be consumed. -/
def tryPlus (k : Nat → Option α) (i : Nat) : Nat → Option α
  | 0 => none
  | n + 1 => (k (i + n + 1)).orElse (fun _ => tryPlus k i n)

/-- Capture state: the span of the (single) capturing group, when set. -/
abbrev Caps := Option (Nat × Nat)

/-- Result of a match attempt: end position and capture state. -/
abbrev MRes := Option (Nat × Caps)

/-- Backtracking matcher in continuation-passing style.  `mrun s rx i caps k`
tries to match `rx` in `s` starting at position `i` with current capture
state `caps`; on each candidate success it calls `k` with the new position
and capture state, backtracking while `k` returns `none`. -/
def mrun (s : List Char) : Rx → Nat → Caps → (Nat → Caps → MRes) → MRes
  | .eps, i, caps, k => k i caps
  | .lit cs, i, caps, k =>
      if cs.isPrefixOf (s.drop i) then k (i + cs.length) caps else none
  | .cls f, i, caps, k =>
      if ((s.get? i).map f).getD false then k (i + 1) caps else none
  | .starCls f, i, caps, k =>
      tryStar (fun j => k j caps) i ((s.drop i).takeWhile f).length
  | .plusCls f, i, caps, k =>
      tryPlus (fun j => k j caps) i ((s.drop i).takeWhile f).length
  | .opt r, i, caps, k =>
      (mrun s r i caps k).orElse (fun _ => k i caps)
  | .alt a b, i, caps, k =>
      (mrun s a i caps k).orElse (fun _ => mrun s b i caps k)
  | .seq a b, i, caps, k =>
      mrun s a i caps (fun j c => mrun s b j c k)
  | .group r, i, caps, k =>
      mrun s r i caps (fun j _ => k j (some (i, j)))
  | .wordB, i, caps, k =>
      if wordBoundaryAt s i then k i caps else none
  | .lineStart, i, caps, k =>
      if i = 0 then k i caps else none

/-- Leftmost-match search: try successive start positions `i`, `i+1`, …
(`fuel` bounds the scan).  Returns `(start, end, capture)` of the first
successful match, like a successful `RegExp.prototype.exec`. -/
def execAux (r : Rx) (s : List Char) (i : Nat) : Nat → Option (Nat × Nat × Caps)
  | 0 => none
  | fuel + 1 =>
      match mrun s r i none (fun j caps => some (j, caps)) with
      | some (j, caps) => some (i, j, caps)
      | none => execAux r s (i + 1) fuel

/-- Mirrors `re.exec(s)` for a non-global regex: leftmost match with greedy
backtracking preference. -/
def rexec (r : Rx) (s : List Char) : Option (Nat × Nat × Caps) :=
  execAux r s 0 (s.length + 1)

/-- Substring of `s` spanned by a capture `(a, b)`. -/
def capSlice (s : List Char) (ab : Nat × Nat) : List Char :=
  (s.drop ab.1).take (ab.2 - ab.1)

/-- Mirrors `m && m[1]` for a regex whose only group always participates in a
match: the text of group 1 of the leftmost match, or `none` (JS `null`). -/
def execGroup1 (r : Rx) (s : List Char) : Option (List Char) :=
  match rexec r s with
  | some (_, _, some ab) => some (capSlice s ab)
  | _ => none

/-! ## The source's regular expressions, transliterated -/

/-- Mirrors `(?:^|\n)\s*config?\s*system?\s*auto-scale[\s\n]*` — the part of
`AUTOSCALE_SECTION_EXPR` before the capturing group.  (`config?` is
`confi` with an optional `g`; `system?` is `syste` with an optional `m`;
`[\s\n]*` equals `\s*` since `\s` contains `\n`.) -/
def asHead : Rx :=
  .seq (.alt .lineStart (.cls (fun c => c = '\n')))
  (.seq (.starCls isJsSpace)
  (.seq (.lit "confi".data)
  (.seq (.opt (.lit "g".data))
  (.seq (.starCls isJsSpace)
  (.seq (.lit "syste".data)
  (.seq (.opt (.lit "m".data))
  (.seq (.starCls isJsSpace)
  (.seq (.lit "auto-scale".data)
  (.starCls isJsSpace)))))))))

/-- The character class `(?:.|\n)`: any char except `\r`, U+2028, U+2029. -/
def asBody (c : Char) : Bool := isJsDot c || c = '\n'

/-- The literal `end`. -/
def endLit : List Char := ("end").data

/-- Mirrors `\bend\b` — the trailing part of `AUTOSCALE_SECTION_EXPR`. -/
def endRx : Rx := .seq .wordB (.seq (.lit endLit) .wordB)

/-- Mirrors `((?:.|\n)*)\bend\b` — the greedy capturing group of
`AUTOSCALE_SECTION_EXPR` and the trailing `end` token. -/
def asTail : Rx :=
  .seq (.group (.starCls asBody)) endRx

/-- Mirrors `/(?:^|\n)\s*config?\s*system?\s*auto-scale[\s\n]*((?:.|\n)*)\bend\b/`
(autoscale-handler.js lines 23–24). -/
def AUTOSCALE_SECTION_EXPR : Rx := .seq asHead asTail

/-- Mirrors `/set\s+sync-interface\s+(.+)/` (line 60). -/
def SYNC_INTERFACE_EXPR : Rx :=
  .seq (.lit "set".data) (.seq (.plusCls isJsSpace)
  (.seq (.lit "sync-interface".data) (.seq (.plusCls isJsSpace)
  (.group (.plusCls isJsDot)))))

/-- Mirrors `/set\s+psksecret\s+(.+)/` (line 61). -/
def PSKSECRET_EXPR : Rx :=
  .seq (.lit "set".data) (.seq (.plusCls isJsSpace)
  (.seq (.lit "psksecret".data) (.seq (.plusCls isJsSpace)
  (.group (.plusCls isJsDot)))))

/-- Mirrors `/set\s+admin-sport\s+(.+)/` (line 62). -/
def ADMIN_SPORT_EXPR : Rx :=
  .seq (.lit "set".data) (.seq (.plusCls isJsSpace)
  (.seq (.lit "admin-sport".data) (.seq (.plusCls isJsSpace)
  (.group (.plusCls isJsDot)))))

/-- Mirrors `/(set\s+(?:psksecret|password)\s+).*/g` (line 25). -/
def SET_SECRET_EXPR : Rx :=
  .seq (.group (.seq (.lit "set".data) (.seq (.plusCls isJsSpace)
    (.seq (.alt (.lit "psksecret".data) (.lit "password".data))
    (.plusCls isJsSpace)))))
  (.starCls isJsDot)

/-! ## JavaScript string / value helpers -/

/-- JS truthiness of a string-or-`null`/`undefined` value: `null`,
`undefined` and the empty string are falsy. -/
def jsTruthy : Option (List Char) → Bool
  | none => false
  | some s => !s.isEmpty

/-- The JS conditional `v ? v : dflt` on a string-or-`null` value. -/
def jsOrDefault (o : Option (List Char)) (dflt : List Char) : List Char :=
  match o with
  | none => dflt
  | some v => if v.isEmpty then dflt else v

/-- JS template interpolation of a string that may be `null`. -/
def jsInterpNull : Option (List Char) → List Char
  | none => "null".data
  | some v => v

/-- JS template interpolation of a string that may be `undefined`. -/
def jsInterpUndef : Option (List Char) → List Char
  | none => "undefined".data
  | some v => v

/-- Position of the leftmost occurrence of `tok` in a list. -/
def firstLitPos (tok : List Char) : List Char → Option Nat
  | [] => if tok = [] then some 0 else none
  | c :: t =>
      if tok.isPrefixOf (c :: t) then some 0
      else (firstLitPos tok t).map (· + 1)

/-- Does `tok` occur as a contiguous substring of `s`? -/
def hasSubstr (s tok : List Char) : Bool :=
  (firstLitPos tok s).isSome

/-- Number of positions of `s` at which `tok` occurs. -/
def occCount (s tok : List Char) : Nat :=
  ((List.range (s.length + 1)).filter (fun i => tok.isPrefixOf (s.drop i))).length

/-- Text substituted for the capture reference `$n`: group `n`'s text
(empty when it did not participate).  Only `n = 1` can refer to a group
here (the source's patterns have at most one). -/
def groupRef (grp : Option (List Char)) (n : Nat) : List Char :=
  if n = 1 then grp.getD [] else []

/-- One step of ECMAScript `GetSubstitution` on a nonempty replacement
template: the expansion of its first `$`-pattern (or literal character)
together with the unconsumed remainder.  `matched` is the matched text,
`before`/`after` the parts of the subject around the match, `numGroups`
the number of capturing groups of the pattern.  `$$`, `$&`, `` $` ``,
`$'` and `$n`/`$nn` (for `1 ≤ n ≤ numGroups`) are special; anything else
is literal. -/
def applyReplStep (matched before after : List Char) (numGroups : Nat)
    (grp : Option (List Char)) (c : Char) (rest : List Char) :
    List Char × List Char :=
  if c = '$' then
    match rest with
    | [] => (['$'], [])
    | d :: rest2 =>
      if d = '$' then (['$'], rest2)
      else if d = '&' then (matched, rest2)
      else if d = Char.ofNat 96 then (before, rest2)
      else if d = Char.ofNat 39 then (after, rest2)
      else if d.isDigit then
        match rest2 with
        | e :: rest3 =>
          if e.isDigit ∧ 1 ≤ (d.toNat - 48) * 10 + (e.toNat - 48) ∧
              (d.toNat - 48) * 10 + (e.toNat - 48) ≤ numGroups then
            (groupRef grp ((d.toNat - 48) * 10 + (e.toNat - 48)), rest3)
          else if 1 ≤ d.toNat - 48 ∧ d.toNat - 48 ≤ numGroups then
            (groupRef grp (d.toNat - 48), rest2)
          else (['$'], rest)
        | [] =>
          if 1 ≤ d.toNat - 48 ∧ d.toNat - 48 ≤ numGroups then
            (groupRef grp (d.toNat - 48), rest2)
          else (['$'], rest)
      else (['$'], rest)
  else ([c], rest)

/-- ECMAScript `GetSubstitution`, iterated over the whole replacement
template.  Each step consumes at least one character, so template length
is enough fuel. -/
def applyReplAux (matched before after : List Char) (numGroups : Nat)
    (grp : Option (List Char)) : Nat → List Char → List Char
  | 0, _ => []
  | _, [] => []
  | fuel + 1, c :: rest =>
      let step := applyReplStep matched before after numGroups grp c rest
      step.1 ++ applyReplAux matched before after numGroups grp fuel step.2

/-- ECMAScript `GetSubstitution`: expand the `$`-patterns of a
replacement string. -/
def applyRepl (matched before after : List Char) (numGroups : Nat)
    (grp : Option (List Char)) (tmpl : List Char) : List Char :=
  applyReplAux matched before after numGroups grp tmpl.length tmpl

/-- Mirrors `s.replace(pattern, repl)` for a non-global regex whose pattern is the
literal `tok` (no capturing groups): substitute at the leftmost
occurrence, expanding `$`-patterns in `repl`. -/
def jsReplaceFirstLit (s tok repl : List Char) : List Char :=
  match firstLitPos tok s with
  | none => s
  | some i =>
      s.take i ++
      applyRepl tok (s.take i) (s.drop (i + tok.length)) 0 none repl ++
      s.drop (i + tok.length)

/-- One pass of a global `s.replace(rx, tmpl)` starting at position `p`
(`fuel` bounds the number of matches; a zero-length match advances by one
character, as `lastIndex` does). -/
def jsReplaceAllAux (rx : Rx) (numGroups : Nat) (tmpl s : List Char) :
    Nat → Nat → List Char
  | _, 0 => []
  | p, fuel + 1 =>
    match execAux rx s p (s.length + 1 - p) with
    | none => s.drop p
    | some (a, e, caps) =>
      let matched := (s.drop a).take (e - a)
      let grp := caps.map (capSlice s)
      let repl := applyRepl matched (s.take a) (s.drop e) numGroups grp tmpl
      (s.drop p).take (a - p) ++ repl ++
        (if a < e then jsReplaceAllAux rx numGroups tmpl s e fuel
         else match s.get? e with
              | some c => c :: jsReplaceAllAux rx numGroups tmpl s (e + 1) fuel
              | none => [])

/-- Mirrors `s.replace(rx, tmpl)` for a global regex `rx`. -/
def jsReplaceAll (rx : Rx) (numGroups : Nat) (tmpl s : List Char) : List Char :=
  jsReplaceAllAux rx numGroups tmpl s 0 (s.length + 1)

/-! ## JSON values and `JSON.stringify` -/

/-- Primitive JSON-serializable JS values appearing in this code. -/
inductive JAtom where
  | jnull : JAtom
  | jstr : List Char → JAtom
  | jnum : Int → JAtom
deriving DecidableEq

/-- JSON-serializable JS values, as far as this code produces them: the
objects it builds (`responseToHeartBeat`'s response, the error detail of
`getSlaveConfig`, the settings object) are flat — their values are
primitives, never nested objects. -/
inductive JVal where
  | atom : JAtom → JVal
  | jobj : List (List Char × JAtom) → JVal
deriving DecidableEq

def braceL : Char := Char.ofNat 123
def braceR : Char := Char.ofNat 125

/-- Hex digit (lowercase) for `\u00xx` escapes. -/
def toHexDigit (n : Nat) : Char :=
  if n < 10 then Char.ofNat (48 + n) else Char.ofNat (87 + n)

/-- Mirrors `JSON.stringify` escaping of one character inside a string literal. -/
def jsonEscapeChar (c : Char) : List Char :=
  if c = '"' then ['\\', '"']
  else if c = '\\' then ['\\', '\\']
  else if c = Char.ofNat 8 then ['\\', 'b']
  else if c = '\t' then ['\\', 't']
  else if c = '\n' then ['\\', 'n']
  else if c = Char.ofNat 12 then ['\\', 'f']
  else if c = '\r' then ['\\', 'r']
  else if c.toNat < 32 then
    ['\\', 'u', '0', '0', toHexDigit (c.toNat / 16), toHexDigit (c.toNat % 16)]
  else [c]

/-- Mirrors `JSON.stringify` of a string value (quoted, escaped). -/
def jsonQuoteStr (s : List Char) : List Char :=
  '"' :: s.foldr (fun c acc => jsonEscapeChar c ++ acc) ['"']

/-- Mirrors `JSON.stringify` of a primitive value. -/
def jsonAtom : JAtom → List Char
  | .jnull => "null".data
  | .jstr s => jsonQuoteStr s
  | .jnum n => (toString n).data

/-- Comma-separated `"key":value` renderings of an object's fields. -/
def jsonFields : List (List Char × JAtom) → List Char
  | [] => []
  | (k, v) :: rest =>
      jsonQuoteStr k ++ ':' :: jsonAtom v ++
        (match rest with
         | [] => []
         | _ => ',' :: jsonFields rest)

/-- Mirrors `JSON.stringify` (no indentation). -/
def jsonStringify : JVal → List Char
  | .atom a => jsonAtom a
  | .jobj fs => braceL :: jsonFields fs ++ [braceR]

/-! ## The data model: platform and handler -/

/-- The settings-store face of the abstract `CloudPlatform`
(cloud-platform.js declares `getSettingItem`/`setSettingItem` as abstract
methods; a concrete platform supplies them).  `σ` is the store's state. -/
structure CloudPlatform (σ : Type) where
  state : σ
  getSettingItem : σ → List Char → Option JVal
  setSettingItem : σ → List Char → JVal → σ

/-- Mirrors `constructor(platform, baseConfig)` of `AutoscaleHandler`. -/
structure AutoscaleHandler (σ : Type) where
  platform : CloudPlatform σ
  baseConfig : List Char

/-- Errors a method can throw. -/
inductive JsErr where
  | jsError : List Char → JsErr
  | referenceError : List Char → JsErr
deriving DecidableEq

/-- JS truthiness of a `JVal`. -/
def jvTruthy : JVal → Bool
  | .atom .jnull => false
  | .atom (.jstr s) => !s.isEmpty
  | .atom (.jnum n) => n != 0
  | .jobj _ => true

/-- Mirrors `throwNotImplementedException() { throw new Error('Not Implemented'); }` -/
def throwNotImplementedException : Except JsErr JVal :=
  .error (.jsError "Not Implemented".data)

/-- Mirrors `async purgeMaster() { return await this.throwNotImplementedException() || asgName; }`
(lines 176–178).  `||` evaluates its left operand first; only if that
completes with a falsy value is the right operand — the undefined
identifier `asgName`, whose evaluation would raise a `ReferenceError` —
evaluated. -/
def purgeMaster (h : AutoscaleHandler σ) : Except JsErr JVal :=
  match throwNotImplementedException with
  | .error e => .error e
  | .ok v => if jvTruthy v then .ok v else .error (.referenceError "asgName".data)

/-- The literal placeholder matched by `/\$\{CALLBACK_URL}/`. -/
def CALLBACK_URL_TOKEN : List Char := "${CALLBACK_URL}".data

/-- Mirrors `async getMasterConfig(callbackUrl) { return await this._baseConfig.replace(/\$\{CALLBACK_URL}/, callbackUrl); }`
(lines 51–53).  The pattern is a literal with no capturing groups, so
`replace` substitutes at the leftmost occurrence of `${CALLBACK_URL}`,
expanding `$`-patterns in the replacement string as
`String.prototype.replace` specifies. -/
def getMasterConfig (h : AutoscaleHandler σ) (callbackUrl : List Char) : List Char :=
  jsReplaceFirstLit h.baseConfig CALLBACK_URL_TOKEN callbackUrl

/-! ## getSlaveConfig (lines 55–107) -/

/-- Mirrors `autoScaleSectionMatch && autoScaleSectionMatch[1]`. -/
def autoScaleSectionOf (base : List Char) : Option (List Char) :=
  execGroup1 AUTOSCALE_SECTION_EXPR base

/-- The string the three field `exec`s actually receive: when the section
match failed the JS value is `null`, which `RegExp.prototype.exec`
coerces to the string `"null"`. -/
def sectionStrOf (base : List Char) : List Char :=
  match autoScaleSectionOf base with
  | some sec => sec
  | none => "null".data

/-- Mirrors `/set\s+sync-interface\s+(.+)/.exec(autoScaleSection)` then `m && m[1]`. -/
def syncInterfaceOf (base : List Char) : Option (List Char) :=
  execGroup1 SYNC_INTERFACE_EXPR (sectionStrOf base)

/-- Mirrors `/set\s+psksecret\s+(.+)/.exec(autoScaleSection)` then `m && m[1]`. -/
def pskSecretOf (base : List Char) : Option (List Char) :=
  execGroup1 PSKSECRET_EXPR (sectionStrOf base)

/-- Mirrors `/set\s+admin-sport\s+(.+)/.exec(autoScaleSection)` then `m && m[1]`. -/
def adminPortOf (base : List Char) : Option (List Char) :=
  execGroup1 ADMIN_SPORT_EXPR (sectionStrOf base)

def slaveT1 : List Char :=
  ("\n                        config system auto-scale\n                            set status enable\n                            set sync-interface ").data
def slaveT2 : List Char :=
  ("\n                            set role slave\n                            set master-ip ").data
def slaveT3 : List Char :=
  ("\n                            set callback-url ").data
def slaveT4 : List Char :=
  ("\n                            set psksecret ").data
def slaveT5 : List Char :=
  ("\n                        end\n                        config system dns\n                            unset primary\n                            unset secondary\n                        end\n                        config system global\n                            set admin-console-timeout 300\n                        end\n                        config system global\n                            set admin-sport ").data
def slaveT6 : List Char :=
  ("\n                        end\n                    ").data

/-- The template literal of lines 66–85, with its interpolation slots. -/
def renderSlaveConfig (syncInterface masterIp apiEndpoint pskSecret adminPort : List Char) :
    List Char :=
  slaveT1 ++ syncInterface ++ slaveT2 ++ masterIp ++ slaveT3 ++ apiEndpoint ++
    slaveT4 ++ pskSecret ++ slaveT5 ++ adminPort ++ slaveT6

/-- Mirrors `JSON.stringify({syncInterface, apiEndpoint, masterIp, pskSecret:
pskSecret && typeof pskSecret})` of lines 98–103.  Keys whose value is
`undefined` are omitted by `JSON.stringify`; `null` values are kept. -/
def invalidConfigDetail (syncInterface apiEndpoint masterIp pskSecret : Option (List Char)) :
    List Char :=
  jsonStringify (.jobj (
    [("syncInterface".data, match syncInterface with
        | none => JAtom.jnull
        | some v => JAtom.jstr v)] ++
    (match apiEndpoint with
        | none => []
        | some v => [("apiEndpoint".data, JAtom.jstr v)]) ++
    (match masterIp with
        | none => []
        | some v => [("masterIp".data, JAtom.jstr v)]) ++
    [("pskSecret".data, match pskSecret with
        | none => JAtom.jnull
        | some _ => JAtom.jstr "string".data)]))

/-- Mirrors `async getSlaveConfig(masterIp, callbackUrl)` (lines 55–107).
`masterIp`/`callbackUrl` are `undefined` when absent (`none`).  The
`config.replace(SET_SECRET_EXPR, '$1 *')` of line 105 produces a redacted
rendering whose value the source discards (strings are immutable and the
result is not assigned); the returned config is the unredacted one. -/
def getSlaveConfig (h : AutoscaleHandler σ) (masterIp callbackUrl : Option (List Char)) :
    Except JsErr (List Char) :=
  let syncInterface := syncInterfaceOf h.baseConfig
  let pskSecret := pskSecretOf h.baseConfig
  let adminPort := adminPortOf h.baseConfig
  let apiEndpoint := callbackUrl
  let config := renderSlaveConfig
    (jsOrDefault syncInterface "port1".data)
    (jsInterpUndef masterIp)
    (jsInterpUndef apiEndpoint)
    (jsInterpNull pskSecret)
    (jsOrDefault adminPort "8443".data)
  let errorMessage : Option (List Char) := none
  let errorMessage := if !jsTruthy apiEndpoint then some "Api endpoint is missing".data else errorMessage
  let errorMessage := if !jsTruthy masterIp then some "Master ip is missing".data else errorMessage
  let errorMessage := if !jsTruthy pskSecret then some "psksecret is missing".data else errorMessage
  if !jsTruthy pskSecret || !jsTruthy apiEndpoint || !jsTruthy masterIp then
    .error (.jsError ("Base config is invalid (".data ++ jsInterpUndef errorMessage ++
      "): ".data ++ invalidConfigDetail syncInterface apiEndpoint masterIp pskSecret))
  else
    let _redacted := jsReplaceAll SET_SECRET_EXPR 1 ("$1 *".data) config
    .ok config

/-- The redacted rendering computed (and discarded) by line 105:
`config.replace(SET_SECRET_EXPR, '$1 *')`. -/
def redactedView (config : List Char) : List Char :=
  jsReplaceAll SET_SECRET_EXPR 1 ("$1 *".data) config

/-- Mirrors `responseToHeartBeat(masterIp)` (lines 123–129): build `{}`; add
`response['master-ip'] = masterIp` when `masterIp` is truthy; then
`JSON.stringify(response)`. -/
def responseToHeartBeat (masterIp : Option (List Char)) : List Char :=
  let response : List (List Char × JAtom) := []
  let response := if jsTruthy masterIp
    then response ++ [("master-ip".data, JAtom.jstr (masterIp.getD []))]
    else response
  jsonStringify (.jobj response)

/-- Mirrors `async loadSettings() { return await this.platform.getSettingItem('auto-scaling-group'); }`
(lines 146–148). -/
def loadSettings (h : AutoscaleHandler σ) : Option JVal :=
  h.platform.getSettingItem h.platform.state "auto-scaling-group".data

/-- Mirrors `async saveSettings(desiredCapacity, minSize, maxSize)` (lines
150–157): store `{desiredCapacity, minSize, maxSize}` under the key
`'auto-scaling-group'`. -/
def saveSettings (h : AutoscaleHandler σ) (desiredCapacity minSize maxSize : Int) :
    AutoscaleHandler σ :=
  let settingValues : JVal := .jobj
    [("desiredCapacity".data, JAtom.jnum desiredCapacity),
     ("minSize".data, JAtom.jnum minSize),
     ("maxSize".data, JAtom.jnum maxSize)]
  { h with platform := { h.platform with
      state := h.platform.setSettingItem h.platform.state "auto-scaling-group".data settingValues } }

/-! ## Master election (spec-modelled) -/

/-- Vote state of a `MasterRecord` (spec §3). -/
inductive VoteState where
  | pending : VoteState
  | done : VoteState
deriving DecidableEq

/-- Modelled from the spec: the `MasterRecord` of spec §3 (the fields the
election claim needs: the owner's ip and the vote state). -/
structure MasterRecord where
  ip : List Char
  voteState : VoteState

/-- Modelled from the spec: the Membership Store of spec §2/§6, holding
the single elected-master record for the group. -/
structure MembershipStore where
  masterRecord : Option MasterRecord

/-- Outcome of an election vote: the conditional write succeeded, or the
caller lost the race (`ElectionConflict`, spec §7). -/
inductive VoteOutcome where
  | success : VoteOutcome
  | electionConflict : VoteOutcome
deriving DecidableEq

/-- Modelled from the spec: `putMasterElectionVote(ip, purgeMasterIp)` is
declared abstract in src/core/cloud-platform.js (lines 28–30, it only
throws 'Not Implemented'); its conditional-write semantics are spec
§4.1's: the vote "succeeds only if no MasterRecord exists or the existing
one matches `purgeMasterIp`", and otherwise fails with
`ElectionConflict`.  The write is one atomic compare-and-set on the
store. -/
def putMasterElectionVote (st : MembershipStore) (ip : List Char)
    (purgeMasterIp : Option (List Char)) : VoteOutcome × MembershipStore :=
  match st.masterRecord with
  | none => (.success, ⟨some ⟨ip, .pending⟩⟩)
  | some r =>
      if purgeMasterIp = some r.ip then (.success, ⟨some ⟨ip, .pending⟩⟩)
      else (.electionConflict, st)

/-- Modelled from the spec: a set of concurrent election attempts, each a
single atomic conditional write (spec §5), is equivalent to executing the
attempts in some linearization order; `runVotes` executes one such order
and returns each caller's outcome. -/
def runVotes (st : MembershipStore) :
    List (List Char × Option (List Char)) → List VoteOutcome
  | [] => []
  | (ip, purge) :: rest =>
      let r := putMasterElectionVote st ip purge
      r.1 :: runVotes r.2 rest

/-! ## The spec's delimitation of the auto-scale section -/

/-- Split into lines at `\n`. -/
def splitLinesAux : List Char → List Char → List (List Char)
  | [], acc => [acc.reverse]
  | c :: t, acc =>
      if c = '\n' then acc.reverse :: splitLinesAux t []
      else splitLinesAux t (c :: acc)

def splitLines (s : List Char) : List (List Char) := splitLinesAux s []

def joinLines (ls : List (List Char)) : List Char :=
  (ls.map (· ++ ['\n'])).flatten

/-- Strip leading and trailing whitespace. -/
def trimSpaces (l : List Char) : List Char :=
  ((l.dropWhile isJsSpace).reverse.dropWhile isJsSpace).reverse

/-- The auto-scale section as the SPEC's grammar (§6) delimits it: the
lines strictly between the `config ... auto-scale` header line and the
next bare `end` line.  This is a second definition following the spec's
words, for comparison with the code's regex capture. -/
def spec_autoScaleSection (base : List Char) : List Char :=
  let lines := splitLines base
  let rest := lines.dropWhile (fun l =>
    !(("config".data).isPrefixOf (trimSpaces l) && hasSubstr l "auto-scale".data))
  match rest with
  | [] => []
  | _ :: afterHeader =>
      joinLines (afterHeader.takeWhile (fun l => trimSpaces l ≠ "end".data))

/-! ## Observation helpers and concrete fixtures -/

/-- Did the call throw? -/
def isErr : Except JsErr (List Char) → Bool
  | .error _ => true
  | .ok _ => false

/-- Either the call returned a config, or it threw the `InvalidBaseConfig`
error (`new Error` whose message starts with `Base config is invalid (`). -/
def okOrInvalidBaseConfig : Except JsErr (List Char) → Bool
  | .ok _ => true
  | .error (.jsError m) => ("Base config is invalid (".data).isPrefixOf m
  | .error _ => false

/-- Did the call raise a `ReferenceError`? -/
def isReferenceError : Except JsErr JVal → Bool
  | .error (.referenceError _) => true
  | _ => false

/-- An `end` token with word boundaries starting at position `p` — exactly
what the `\bend\b` part of `AUTOSCALE_SECTION_EXPR` requires at `p`. -/
def endTokenAt (s : List Char) (p : Nat) : Bool :=
  wordBoundaryAt s p && endLit.isPrefixOf (s.drop p) && wordBoundaryAt s (p + 3)

/-- Every capturing group of the expression wraps a `plusCls` (true of the
three field-extraction regexes), so any capture is nonempty. -/
def plusGroups : Rx → Bool
  | .group (.plusCls _) => true
  | .group _ => false
  | .seq a b => plusGroups a && plusGroups b
  | .alt a b => plusGroups a && plusGroups b
  | .opt r => plusGroups r
  | _ => true

/-- Well-formedness of a capture state: a set capture spans a nonempty
in-bounds range. -/
def capsOK (s : List Char) : Caps → Prop
  | none => True
  | some ab => ab.1 < ab.2 ∧ ab.2 ≤ s.length

/-- A cloud platform with no settings capability (getSlaveConfig and
getMasterConfig never consult the platform). -/
def trivialPlatform : CloudPlatform Unit :=
  ⟨(), fun _ _ => none, fun st _ _ => st⟩

/-- An association-list settings store: `set` prepends, `get` finds the
most recent binding.  It satisfies the get-after-set law. -/
def assocPlatform : CloudPlatform (List (List Char × JVal)) :=
  ⟨[], fun st k => (st.find? (fun p => p.1 == k)).map (·.2),
       fun st k v => (k, v) :: st⟩

/-- A base config whose auto-scale section (as the spec delimits it)
holds only a sync-interface, while a `set psksecret` line sits in a later
section — before the last `end` token of the text. -/
def leakBase : List Char :=
  ("config system auto-scale\nset sync-interface port2\nend\nconfig other\nset psksecret leaked\nend\n").data

/-- The example base config of the spec's testable property: auto-scale
section with `sync-interface port3` and `psksecret abc123`. -/
def exampleBase : List Char :=
  ("config system auto-scale\n    set sync-interface port3\n    set psksecret abc123\nend\n").data

/-- A base config whose auto-scale section has a psksecret but neither a
sync-interface nor an admin-sport line. -/
def defaultsBase : List Char :=
  ("config system auto-scale\n    set psksecret s3cr3t\nend\n").data

/-! ## A parser for the serialized heartbeat response -/

/-- Numeric value of a lowercase hex digit. -/
def unhexDigit (c : Char) : Nat :=
  if c.toNat ≤ 57 then c.toNat - 48 else c.toNat - 87

/-- Parse the remainder of a JSON string literal (after the opening
quote), undoing `jsonEscapeChar`; returns the decoded text and the rest
of the input. -/
def parseJstrAux : List Char → List Char → Option (List Char × List Char)
  | [], _ => none
  | c :: rest, acc =>
    if c = '"' then some (acc.reverse, rest)
    else if c = '\\' then
      match rest with
      | [] => none
      | d :: rest2 =>
        if d = '"' then parseJstrAux rest2 ('"' :: acc)
        else if d = '\\' then parseJstrAux rest2 ('\\' :: acc)
        else if d = 'b' then parseJstrAux rest2 (Char.ofNat 8 :: acc)
        else if d = 't' then parseJstrAux rest2 ('\t' :: acc)
        else if d = 'n' then parseJstrAux rest2 ('\n' :: acc)
        else if d = 'f' then parseJstrAux rest2 (Char.ofNat 12 :: acc)
        else if d = 'r' then parseJstrAux rest2 ('\r' :: acc)
        else if d = 'u' then
          match rest2 with
          | h1 :: h2 :: h3 :: h4 :: rest3 =>
              parseJstrAux rest3
                (Char.ofNat (((unhexDigit h1 * 16 + unhexDigit h2) * 16 + unhexDigit h3) * 16 +
                  unhexDigit h4) :: acc)
          | _ => none
        else none
    else parseJstrAux rest (c :: acc)

/-- Parse one or more comma-separated `"key":"value"` fields followed by
the closing brace. -/
def parseFieldsAux : Nat → List Char → Option (List (List Char × List Char))
  | 0, _ => none
  | fuel + 1, s =>
    match s with
    | q :: rest =>
      if q = '"' then
        match parseJstrAux rest [] with
        | none => none
        | some (k, rest2) =>
          match rest2 with
          | colon :: rest3 =>
            if colon = ':' then
              match rest3 with
              | q2 :: rest4 =>
                if q2 = '"' then
                  match parseJstrAux rest4 [] with
                  | none => none
                  | some (v, rest5) =>
                    match rest5 with
                    | [c] => if c = braceR then some [(k, v)] else none
                    | c :: rest6 =>
                        if c = ',' then (parseFieldsAux fuel rest6).map ((k, v) :: ·)
                        else none
                    | [] => none
                else none
              | [] => none
            else none
          | [] => none
      else none
    | [] => none

/-- Parse a serialized JSON object whose values are strings (the shape
`responseToHeartBeat` produces). -/
def parseJsonObj (s : List Char) : Option (List (List Char × List Char)) :=
  match s with
  | c :: d :: rest =>
      if c = braceL then
        if d = braceR then (if rest = [] then some [] else none)
        else parseFieldsAux s.length (d :: rest)
      else none
  | _ => none

/-! # Theorems -/

/-! ## General lemmas about the matcher -/

theorem isPrefixOf_append_self : ∀ l r : List Char, l.isPrefixOf (l ++ r) = true := by
  intro l r
  induction l with
  | nil => cases r <;> rfl
  | cons c t ih => simp [List.isPrefixOf, ih]

theorem hasSubstr_append : ∀ pre pat post : List Char,
    hasSubstr (pre ++ (pat ++ post)) pat = true := by
  intro pre
  induction pre with
  | nil =>
      intro pat post
      rcases pat with _ | ⟨c, t⟩
      · rcases post with _ | ⟨d, u⟩ <;> simp [hasSubstr, firstLitPos]
      · have hpre : (c :: t).isPrefixOf (c :: (t ++ post)) = true := by
          simpa using isPrefixOf_append_self (c :: t) post
        simp [hasSubstr, firstLitPos, hpre]
  | cons c pre' ih =>
      intro pat post
      by_cases hp : pat.isPrefixOf (c :: (pre' ++ (pat ++ post)))
      · simp [hasSubstr, firstLitPos, hp]
      · have hih := ih pat post
        simp only [hasSubstr] at hih ⊢
        simp [firstLitPos, hp, Option.isSome_map, hih]

theorem length_takeWhile_le' (f : Char → Bool) :
    ∀ l : List Char, (l.takeWhile f).length ≤ l.length := by
  intro l
  induction l with
  | nil => simp [List.takeWhile]
  | cons c t ih =>
      rw [List.takeWhile]
      cases f c <;> simp <;> omega

theorem tryStar_ex {α} (k : Nat → Option α) (i : Nat) :
    ∀ n r, tryStar k i n = some r → ∃ j, j ≤ n ∧ k (i + j) = some r := by
  intro n
  induction n with
  | zero =>
      intro r h
      exact ⟨0, Nat.le_refl _, by simpa [tryStar] using h⟩
  | succ n ih =>
      intro r h
      rw [tryStar] at h
      rcases ho : k (i + n + 1) with _ | v
      · rw [ho] at h
        simp only [Option.orElse] at h
        obtain ⟨j, hj, hk⟩ := ih r h
        exact ⟨j, Nat.le_succ_of_le hj, hk⟩
      · rw [ho] at h
        simp only [Option.orElse] at h
        cases h
        exact ⟨n + 1, Nat.le_refl _, ho⟩

theorem tryPlus_ex {α} (k : Nat → Option α) (i : Nat) :
    ∀ n r, tryPlus k i n = some r → ∃ j, 1 ≤ j ∧ j ≤ n ∧ k (i + j) = some r := by
  intro n
  induction n with
  | zero =>
      intro r h
      simp [tryPlus] at h
  | succ n ih =>
      intro r h
      rw [tryPlus] at h
      rcases ho : k (i + n + 1) with _ | v
      · rw [ho] at h
        simp only [Option.orElse] at h
        obtain ⟨j, hj1, hj, hk⟩ := ih r h
        exact ⟨j, hj1, Nat.le_succ_of_le hj, hk⟩
      · rw [ho] at h
        simp only [Option.orElse] at h
        cases h
        exact ⟨n + 1, Nat.succ_le_succ (Nat.zero_le _), Nat.le_refl _, ho⟩

theorem tryStar_max {α} (k : Nat → Option α) (i : Nat) :
    ∀ n r, tryStar k i n = some r →
      ∃ j, j ≤ n ∧ k (i + j) = some r ∧ ∀ m, j < m → m ≤ n → k (i + m) = none := by
  intro n
  induction n with
  | zero =>
      intro r h
      refine ⟨0, Nat.le_refl _, by simpa [tryStar] using h, ?_⟩
      intro m h1 h2
      omega
  | succ n ih =>
      intro r h
      rw [tryStar] at h
      rcases ho : k (i + n + 1) with _ | v
      · rw [ho] at h
        simp only [Option.orElse] at h
        obtain ⟨j, hj, hk, hmax⟩ := ih r h
        refine ⟨j, Nat.le_succ_of_le hj, hk, ?_⟩
        intro m h1 h2
        rcases Nat.lt_or_ge m (n + 1) with hm | hm
        · exact hmax m h1 (Nat.lt_succ_iff.mp hm)
        · have : m = n + 1 := by omega
          subst this
          exact ho
      · rw [ho] at h
        simp only [Option.orElse] at h
        cases h
        refine ⟨n + 1, Nat.le_refl _, ho, ?_⟩
        intro m h1 h2
        omega

/-- Any successful run of the matcher reaches its continuation: there are
`j`, `c` with `k j c = some r`. -/
theorem mrun_ex0 (s : List Char) :
    ∀ (rx : Rx) (i : Nat) (caps : Caps) (k : Nat → Caps → MRes) (r : Nat × Caps),
      mrun s rx i caps k = some r → ∃ j c, k j c = some r := by
  intro rx
  induction rx with
  | eps =>
      intro i caps k r h
      exact ⟨i, caps, h⟩
  | lit cs =>
      intro i caps k r h
      simp only [mrun] at h
      split at h
      · exact ⟨_, _, h⟩
      · exact absurd h (by simp)
  | cls f =>
      intro i caps k r h
      simp only [mrun] at h
      split at h
      · exact ⟨_, _, h⟩
      · exact absurd h (by simp)
  | starCls f =>
      intro i caps k r h
      simp only [mrun] at h
      obtain ⟨j, _, hk⟩ := tryStar_ex _ _ _ _ h
      exact ⟨_, _, hk⟩
  | plusCls f =>
      intro i caps k r h
      simp only [mrun] at h
      obtain ⟨j, _, _, hk⟩ := tryPlus_ex _ _ _ _ h
      exact ⟨_, _, hk⟩
  | opt rx ih =>
      intro i caps k r h
      simp only [mrun] at h
      rcases hm : mrun s rx i caps k with _ | v <;> rw [hm] at h
      · simp only [Option.orElse] at h
        exact ⟨i, caps, h⟩
      · simp only [Option.orElse] at h
        cases h
        exact ih i caps k _ hm
  | alt a b iha ihb =>
      intro i caps k r h
      simp only [mrun] at h
      rcases hm : mrun s a i caps k with _ | v <;> rw [hm] at h
      · simp only [Option.orElse] at h
        exact ihb i caps k r h
      · simp only [Option.orElse] at h
        cases h
        exact iha i caps k _ hm
  | seq a b iha ihb =>
      intro i caps k r h
      simp only [mrun] at h
      obtain ⟨j, c, hk⟩ := iha i caps _ r h
      exact ihb j c k r hk
  | group rx ih =>
      intro i caps k r h
      simp only [mrun] at h
      obtain ⟨j, c, hk⟩ := ih i caps _ r h
      exact ⟨j, some (i, j), hk⟩
  | wordB =>
      intro i caps k r h
      simp only [mrun] at h
      split at h
      · exact ⟨_, _, h⟩
      · exact absurd h (by simp)
  | lineStart =>
      intro i caps k r h
      simp only [mrun] at h
      split at h
      · exact ⟨_, _, h⟩
      · exact absurd h (by simp)

/-- When every group of `rx` wraps a `plusCls`, the matcher only hands
well-formed (nonempty, in-bounds) capture states to its continuation. -/
theorem mrun_caps (s : List Char) :
    ∀ (rx : Rx), plusGroups rx = true →
    ∀ (i : Nat) (caps : Caps) (k : Nat → Caps → MRes) (r : Nat × Caps),
      capsOK s caps → mrun s rx i caps k = some r →
      ∃ j c, capsOK s c ∧ k j c = some r := by
  intro rx
  induction rx with
  | eps =>
      intro _ i caps k r hok h
      exact ⟨i, caps, hok, h⟩
  | lit cs =>
      intro _ i caps k r hok h
      simp only [mrun] at h
      split at h
      · exact ⟨_, _, hok, h⟩
      · exact absurd h (by simp)
  | cls f =>
      intro _ i caps k r hok h
      simp only [mrun] at h
      split at h
      · exact ⟨_, _, hok, h⟩
      · exact absurd h (by simp)
  | starCls f =>
      intro _ i caps k r hok h
      simp only [mrun] at h
      obtain ⟨j, _, hk⟩ := tryStar_ex _ _ _ _ h
      exact ⟨_, _, hok, hk⟩
  | plusCls f =>
      intro _ i caps k r hok h
      simp only [mrun] at h
      obtain ⟨j, _, _, hk⟩ := tryPlus_ex _ _ _ _ h
      exact ⟨_, _, hok, hk⟩
  | opt rx ih =>
      intro hpg i caps k r hok h
      simp only [mrun] at h
      rcases hm : mrun s rx i caps k with _ | v <;> rw [hm] at h
      · simp only [Option.orElse] at h
        exact ⟨i, caps, hok, h⟩
      · simp only [Option.orElse] at h
        cases h
        exact ih (by simpa [plusGroups] using hpg) i caps k _ hok hm
  | alt a b iha ihb =>
      intro hpg i caps k r hok h
      have hpa : plusGroups a = true := by
        have := hpg
        simp [plusGroups, Bool.and_eq_true] at this
        exact this.1
      have hpb : plusGroups b = true := by
        have := hpg
        simp [plusGroups, Bool.and_eq_true] at this
        exact this.2
      simp only [mrun] at h
      rcases hm : mrun s a i caps k with _ | v <;> rw [hm] at h
      · simp only [Option.orElse] at h
        exact ihb hpb i caps k r hok h
      · simp only [Option.orElse] at h
        cases h
        exact iha hpa i caps k _ hok hm
  | seq a b iha ihb =>
      intro hpg i caps k r hok h
      have hpa : plusGroups a = true := by
        have := hpg
        simp [plusGroups, Bool.and_eq_true] at this
        exact this.1
      have hpb : plusGroups b = true := by
        have := hpg
        simp [plusGroups, Bool.and_eq_true] at this
        exact this.2
      simp only [mrun] at h
      obtain ⟨j, c, hc, hk⟩ := iha hpa i caps _ r hok h
      exact ihb hpb j c k r hc hk
  | group rx ih =>
      intro hpg i caps k r hok h
      rcases rx with _ | _ | _ | _ | f | _ | _ | _ | _ | _ | _ <;>
        simp [plusGroups] at hpg
      -- only the `plusCls f` body survives
      simp only [mrun] at h
      obtain ⟨j, hj1, hjn, hk⟩ := tryPlus_ex _ _ _ _ h
      refine ⟨i + j, some (i, i + j), ?_, hk⟩
      have hn : ((s.drop i).takeWhile f).length ≤ s.length - i := by
        have h1 := length_takeWhile_le' f (s.drop i)
        simpa [List.length_drop] using h1
      constructor
      · omega
      · omega
  | wordB =>
      intro _ i caps k r hok h
      simp only [mrun] at h
      split at h
      · exact ⟨_, _, hok, h⟩
      · exact absurd h (by simp)
  | lineStart =>
      intro _ i caps k r hok h
      simp only [mrun] at h
      split at h
      · exact ⟨_, _, hok, h⟩
      · exact absurd h (by simp)

/-- Captures reported by a leftmost-match search are well-formed when
every group of the pattern wraps a `plusCls`. -/
theorem execAux_caps (rx : Rx) (hg : plusGroups rx = true) (s : List Char) :
    ∀ fuel i a e caps, execAux rx s i fuel = some (a, e, caps) → capsOK s caps := by
  intro fuel
  induction fuel with
  | zero =>
      intro i a e caps h
      simp [execAux] at h
  | succ fuel ih =>
      intro i a e caps h
      rw [execAux] at h
      rcases hm : mrun s rx i none (fun j c => some (j, c)) with _ | ⟨j0, c0⟩ <;> rw [hm] at h
      · exact ih _ _ _ _ h
      · obtain ⟨j', c', hok, hk⟩ := mrun_caps s rx hg i none _ _ trivial hm
        simp only [Option.some.injEq, Prod.mk.injEq] at hk h
        obtain ⟨hj, hc⟩ := hk
        obtain ⟨ha, he2, hcs⟩ := h
        rw [← hcs, ← hc]
        exact hok

/-- A nonempty-group pattern never extracts the empty string. -/
theorem execGroup1_ne_empty (rx : Rx) (hg : plusGroups rx = true) (s v : List Char)
    (h : execGroup1 rx s = some v) : v.isEmpty = false := by
  unfold execGroup1 rexec at h
  rcases he : execAux rx s 0 (s.length + 1) with _ | ⟨a, e, caps⟩ <;> rw [he] at h
  · exact absurd h (by simp)
  · rcases caps with _ | ⟨x, y⟩
    · exact absurd h (by simp)
    · have hok := execAux_caps rx hg s _ _ _ _ _ he
      obtain ⟨hxy, hy⟩ := hok
      simp only [Option.some.injEq] at h
      subst h
      have hlen : (capSlice s (x, y)).length = min (y - x) (s.length - x) := by
        simp [capSlice, List.length_take, List.length_drop]
      have hpos : 0 < (capSlice s (x, y)).length := by
        rw [hlen]
        omega
      rcases hv : capSlice s (x, y) with _ | ⟨c, t⟩
      · rw [hv] at hpos; simp at hpos
      · rfl

/-- The psksecret extraction is `null` or a nonempty string, so its JS
truthiness is exactly "a value was extracted". -/
theorem jsTruthy_pskSecretOf (base : List Char) :
    jsTruthy (pskSecretOf base) = (pskSecretOf base).isSome := by
  rcases hp : pskSecretOf base with _ | v
  · rfl
  · have hne := execGroup1_ne_empty PSKSECRET_EXPR rfl (sectionStrOf base) v
      (by simpa [pskSecretOf] using hp)
    simp [jsTruthy, hne]

theorem jsTruthy_syncInterfaceOf (base : List Char) :
    jsTruthy (syncInterfaceOf base) = (syncInterfaceOf base).isSome := by
  rcases hp : syncInterfaceOf base with _ | v
  · rfl
  · have hne := execGroup1_ne_empty SYNC_INTERFACE_EXPR rfl (sectionStrOf base) v
      (by simpa [syncInterfaceOf] using hp)
    simp [jsTruthy, hne]

theorem jsTruthy_adminPortOf (base : List Char) :
    jsTruthy (adminPortOf base) = (adminPortOf base).isSome := by
  rcases hp : adminPortOf base with _ | v
  · rfl
  · have hne := execGroup1_ne_empty ADMIN_SPORT_EXPR rfl (sectionStrOf base) v
      (by simpa [adminPortOf] using hp)
    simp [jsTruthy, hne]

/-! ## Render decomposition -/

theorem slaveT1_decomp :
    slaveT1 =
      ("\n                        config system auto-scale\n                            set status enable\n                            ").data ++
      ("set sync-interface ").data := by
  decide

theorem slaveT2_head :
    slaveT2 = ['\n'] ++
      ("                            set role slave\n                            set master-ip ").data := by
  decide

theorem slaveT5_decomp :
    slaveT5 =
      ("\n                        end\n                        config system dns\n                            unset primary\n                            unset secondary\n                        end\n                        config system global\n                            set admin-console-timeout 300\n                        end\n                        config system global\n                            ").data ++
      ("set admin-sport ").data := by
  decide

theorem slaveT6_head :
    slaveT6 = ['\n'] ++ ("                        end\n                    ").data := by
  decide

/-- The rendered secondary config always contains its sync-interface
line: `set sync-interface <value>\n`. -/
theorem hasSubstr_render_sync (sync mip api psk port : List Char) :
    hasSubstr (renderSlaveConfig sync mip api psk port)
      (("set sync-interface ").data ++ (sync ++ ['\n'])) = true := by
  have e : renderSlaveConfig sync mip api psk port =
      ("\n                        config system auto-scale\n                            set status enable\n                            ").data ++
      (((("set sync-interface ").data ++ (sync ++ ['\n']))) ++
        (("                            set role slave\n                            set master-ip ").data ++
          (mip ++ (slaveT3 ++ (api ++ (slaveT4 ++ (psk ++ (slaveT5 ++ (port ++ slaveT6))))))))) := by
    simp only [renderSlaveConfig, slaveT1_decomp, slaveT2_head, List.append_assoc,
      List.singleton_append, List.cons_append]
  rw [e]
  exact hasSubstr_append _ _ _

/-- The rendered secondary config always contains its admin-sport line:
`set admin-sport <value>\n`. -/
theorem hasSubstr_render_admin (sync mip api psk port : List Char) :
    hasSubstr (renderSlaveConfig sync mip api psk port)
      (("set admin-sport ").data ++ (port ++ ['\n'])) = true := by
  have e : renderSlaveConfig sync mip api psk port =
      (slaveT1 ++ (sync ++ (slaveT2 ++ (mip ++ (slaveT3 ++ (api ++ (slaveT4 ++ (psk ++
        ("\n                        end\n                        config system dns\n                            unset primary\n                            unset secondary\n                        end\n                        config system global\n                            set admin-console-timeout 300\n                        end\n                        config system global\n                            ").data)))))))) ++
      (((("set admin-sport ").data ++ (port ++ ['\n']))) ++
        ("                        end\n                    ").data) := by
    simp only [renderSlaveConfig, slaveT5_decomp, slaveT6_head, List.append_assoc,
      List.singleton_append, List.cons_append]
  rw [e]
  exact hasSubstr_append _ _ _

/-- C9: every invocation of `purgeMaster()` on the unextended base
`AutoscaleHandler` throws the error with message `'Not Implemented'` and
never raises a `ReferenceError` for the undefined identifier `asgName`
in its body: `throwNotImplementedException` raises before the
`|| asgName` operand is evaluated. -/
theorem purgeMaster_not_implemented {σ : Type} (h : AutoscaleHandler σ) :
    purgeMaster h = .error (.jsError ("Not Implemented".data)) ∧
    isReferenceError (purgeMaster h) = false :=
  ⟨rfl, rfl⟩

/-- C7: `getSlaveConfig` is deterministic — two handlers with the same
base config (whatever their platforms, even over different state types)
produce identical results on identical `(masterIp, callbackUrl)`
arguments; no other input influences the result. -/
theorem getSlaveConfig_deterministic {σ σ' : Type}
    (h1 : AutoscaleHandler σ) (h2 : AutoscaleHandler σ')
    (hbase : h1.baseConfig = h2.baseConfig)
    (masterIp callbackUrl : Option (List Char)) :
    getSlaveConfig h1 masterIp callbackUrl = getSlaveConfig h2 masterIp callbackUrl := by
  simp only [getSlaveConfig, hbase]

/-- Witness for C7: handlers over different platforms (an association
store and the trivial store) but the same base config agree on a
concrete render. -/
theorem getSlaveConfig_deterministic_witness :
    getSlaveConfig ⟨assocPlatform, exampleBase⟩
      (some ("10.0.0.5".data)) (some ("https://cb".data)) =
    getSlaveConfig ⟨trivialPlatform, exampleBase⟩
      (some ("10.0.0.5".data)) (some ("https://cb".data)) :=
  getSlaveConfig_deterministic _ _ rfl _ _

/-- C10: `saveSettings` then `loadSettings` round-trips.  Both methods
address the same fixed key `'auto-scaling-group'` and `saveSettings`
stores exactly `{desiredCapacity, minSize, maxSize}`, so any platform
whose settings store satisfies the get-after-set law returns exactly
that object. -/
theorem saveSettings_loadSettings_roundtrip {σ : Type} (h : AutoscaleHandler σ)
    (desiredCapacity minSize maxSize : Int)
    (law : ∀ st k v, h.platform.getSettingItem (h.platform.setSettingItem st k v) k = some v) :
    loadSettings (saveSettings h desiredCapacity minSize maxSize) =
      some (.jobj [("desiredCapacity".data, .jnum desiredCapacity),
                   ("minSize".data, .jnum minSize),
                   ("maxSize".data, .jnum maxSize)]) := by
  simpa only [loadSettings, saveSettings] using law _ _ _

/-- The association-list store satisfies the get-after-set law. -/
theorem assocPlatform_law :
    ∀ st k v, assocPlatform.getSettingItem (assocPlatform.setSettingItem st k v) k = some v := by
  intro st k v
  simp [assocPlatform]

/-- Witness for C10 at a concrete store and capacities. -/
theorem saveSettings_loadSettings_roundtrip_witness :
    loadSettings (saveSettings ⟨assocPlatform, exampleBase⟩ 4 2 8) =
      some (.jobj [("desiredCapacity".data, .jnum 4),
                   ("minSize".data, .jnum 2),
                   ("maxSize".data, .jnum 8)]) :=
  saveSettings_loadSettings_roundtrip _ 4 2 8 assocPlatform_law

/-- Once a master record exists, every vote that does not purge it
observes `ElectionConflict` and the record survives. -/
theorem runVotes_occupied (r : MasterRecord) :
    ∀ ops : List (List Char × Option (List Char)),
    (∀ o ∈ ops, o.2 = none) →
    runVotes ⟨some r⟩ ops = ops.map (fun _ => VoteOutcome.electionConflict) := by
  intro ops
  induction ops with
  | nil => intro _; rfl
  | cons o rest ih =>
      intro hp
      obtain ⟨ip, purge⟩ := o
      have hpn : purge = none := hp (ip, purge) (by simp)
      subst hpn
      have hrest := ih (fun o ho => hp o (List.mem_cons_of_mem _ ho))
      simp [runVotes, putMasterElectionVote, hrest]

/-- C8: starting from an empty group (no MasterRecord), any linearization
of concurrent election attempts (each one atomic conditional write, none
of them purging a dead master) grants success to exactly the first
write; every other caller observes `ElectionConflict`. -/
theorem putMasterElectionVote_mutual_exclusion
    (first : List Char × Option (List Char))
    (rest : List (List Char × Option (List Char)))
    (hp : ∀ o ∈ first :: rest, o.2 = none) :
    runVotes ⟨none⟩ (first :: rest) =
      VoteOutcome.success :: rest.map (fun _ => VoteOutcome.electionConflict) ∧
    (runVotes ⟨none⟩ (first :: rest)).count VoteOutcome.success = 1 := by
  obtain ⟨ip, purge⟩ := first
  have hpn : purge = none := hp (ip, purge) (by simp)
  subst hpn
  have h1 : runVotes ⟨none⟩ ((ip, none) :: rest) =
      VoteOutcome.success :: rest.map (fun _ => VoteOutcome.electionConflict) := by
    have hrest := runVotes_occupied ⟨ip, .pending⟩ rest
      (fun o ho => hp o (List.mem_cons_of_mem _ ho))
    simp [runVotes, putMasterElectionVote, hrest]
  refine ⟨h1, ?_⟩
  rw [h1]
  rw [List.count_cons_self]
  have h0 : (rest.map (fun _ => VoteOutcome.electionConflict)).count VoteOutcome.success = 0 := by
    rw [List.count_eq_zero]
    intro hmem
    rcases List.mem_map.mp hmem with ⟨_, _, habs⟩
    cases habs
  omega

/-- Witness for C8: three concurrent voters on an empty group. -/
theorem putMasterElectionVote_mutual_exclusion_witness :
    runVotes ⟨none⟩
        (("10.0.0.1".data, none) :: [("10.0.0.2".data, none), ("10.0.0.3".data, none)]) =
      VoteOutcome.success ::
        [("10.0.0.2".data, (none : Option (List Char))), ("10.0.0.3".data, none)].map
          (fun _ => VoteOutcome.electionConflict) ∧
    (runVotes ⟨none⟩
        (("10.0.0.1".data, none) :: [("10.0.0.2".data, none), ("10.0.0.3".data, none)])).count
      VoteOutcome.success = 1 :=
  putMasterElectionVote_mutual_exclusion _ _ (by decide)

/-- C2: `getSlaveConfig` throws exactly when masterIp is absent/empty,
callbackUrl is absent/empty, or no psksecret value is extracted from the
base config; every throw is the `InvalidBaseConfig` error (message
`Base config is invalid (...`), so in those cases no config text is
handed back, and otherwise the rendered config is returned without
throwing. -/
theorem getSlaveConfig_invalid_iff {σ : Type} (h : AutoscaleHandler σ)
    (masterIp callbackUrl : Option (List Char)) :
    isErr (getSlaveConfig h masterIp callbackUrl) =
      (!jsTruthy masterIp || !jsTruthy callbackUrl ||
        (pskSecretOf h.baseConfig).isNone) ∧
    okOrInvalidBaseConfig (getSlaveConfig h masterIp callbackUrl) = true := by
  have hpsk := jsTruthy_pskSecretOf h.baseConfig
  cases hm : jsTruthy masterIp <;> cases hc : jsTruthy callbackUrl <;>
    rcases hp : pskSecretOf h.baseConfig with _ | v <;>
      rw [hp] at hpsk <;>
      simp [getSlaveConfig, isErr, okOrInvalidBaseConfig, hm, hc, hp, hpsk,
        List.append_assoc, isPrefixOf_append_self]

/-- C4: whenever `getSlaveConfig` returns a config, the sync-interface
line uses the extracted value if one was matched and the default `port1`
otherwise, and the admin-sport line uses the extracted value if one was
matched and the default `8443` otherwise. -/
theorem getSlaveConfig_field_defaults {σ : Type} (h : AutoscaleHandler σ)
    (masterIp callbackUrl : Option (List Char)) (cfg : List Char)
    (hok : getSlaveConfig h masterIp callbackUrl = .ok cfg) :
    (syncInterfaceOf h.baseConfig = none →
      hasSubstr cfg (("set sync-interface ").data ++ (("port1").data ++ ['\n'])) = true) ∧
    (∀ v, syncInterfaceOf h.baseConfig = some v →
      hasSubstr cfg (("set sync-interface ").data ++ (v ++ ['\n'])) = true) ∧
    (adminPortOf h.baseConfig = none →
      hasSubstr cfg (("set admin-sport ").data ++ (("8443").data ++ ['\n'])) = true) ∧
    (∀ v, adminPortOf h.baseConfig = some v →
      hasSubstr cfg (("set admin-sport ").data ++ (v ++ ['\n'])) = true) := by
  simp only [getSlaveConfig] at hok
  split at hok
  · exact absurd hok (by simp)
  · injection hok with hcfg
    subst hcfg
    refine ⟨?_, ?_, ?_, ?_⟩
    · intro hs
      rw [hs]
      simpa [jsOrDefault] using hasSubstr_render_sync (("port1").data) _ _ _ _
    · intro v hv
      rw [hv]
      have hne := execGroup1_ne_empty SYNC_INTERFACE_EXPR rfl (sectionStrOf h.baseConfig) v
        (by simpa [syncInterfaceOf] using hv)
      simpa [jsOrDefault, hne] using hasSubstr_render_sync v _ _ _ _
    · intro ha
      rw [ha]
      simpa [jsOrDefault] using hasSubstr_render_admin _ _ _ _ (("8443").data)
    · intro v hv
      rw [hv]
      have hne := execGroup1_ne_empty ADMIN_SPORT_EXPR rfl (sectionStrOf h.baseConfig) v
        (by simpa [adminPortOf] using hv)
      simpa [jsOrDefault, hne] using hasSubstr_render_admin _ _ _ _ v

/-- Witness for C4: a base config with a psksecret but no sync-interface
and no admin-sport line renders with both defaults. -/
theorem getSlaveConfig_field_defaults_witness :
    hasSubstr
      (renderSlaveConfig (("port1").data) (("10.0.0.5").data) (("https://cb").data)
        (("s3cr3t").data) (("8443").data))
      (("set sync-interface ").data ++ (("port1").data ++ ['\n'])) = true ∧
    hasSubstr
      (renderSlaveConfig (("port1").data) (("10.0.0.5").data) (("https://cb").data)
        (("s3cr3t").data) (("8443").data))
      (("set admin-sport ").data ++ (("8443").data ++ ['\n'])) = true := by
  have happ := getSlaveConfig_field_defaults (σ := Unit) ⟨trivialPlatform, defaultsBase⟩
    (some (("10.0.0.5").data)) (some (("https://cb").data))
    (renderSlaveConfig (("port1").data) (("10.0.0.5").data) (("https://cb").data)
      (("s3cr3t").data) (("8443").data))
    rfl
  exact ⟨happ.1 (by decide), happ.2.2.1 (by decide)⟩

/-- C3: for the example base config (auto-scale section with
`sync-interface port3` and `psksecret abc123`), the value returned to
the caller contains `set master-ip 10.0.0.5`, `set sync-interface
port3`, and the real `set psksecret abc123`; the redaction transform of
line 105 — the only redacted rendering the code ever forms, and it
discards it — masks the secret wherever a `set psksecret` line occurs,
as shown on the secret-bearing line of that config. -/
theorem getSlaveConfig_example_render :
    (getSlaveConfig ⟨trivialPlatform, exampleBase⟩
        (some ("10.0.0.5".data)) (some ("https://cb".data))).toOption.map
      (fun cfg =>
        hasSubstr cfg ("set master-ip 10.0.0.5".data) &&
        hasSubstr cfg ("set sync-interface port3".data) &&
        hasSubstr cfg ("set psksecret abc123".data)) = some true ∧
    redactedView (("set psksecret abc123").data) = ("set psksecret  *").data ∧
    hasSubstr (redactedView (("set psksecret abc123").data)) ("abc123".data) = false := by
  refine ⟨by decide, by decide, by decide⟩

/-! ## Greedy capture of the auto-scale section (C1) -/

/-- A successful leftmost search returns the run of the matcher at the
reported start position. -/
theorem execAux_ex (rx : Rx) (s : List Char) :
    ∀ fuel i a e caps, execAux rx s i fuel = some (a, e, caps) →
      mrun s rx a none (fun j c => some (j, c)) = some (e, caps) := by
  intro fuel
  induction fuel with
  | zero =>
      intro i a e caps h
      simp [execAux] at h
  | succ fuel ih =>
      intro i a e caps h
      rw [execAux] at h
      rcases hm : mrun s rx i none (fun j c => some (j, c)) with _ | ⟨j0, c0⟩ <;> rw [hm] at h
      · exact ih _ _ _ _ h
      · simp only [Option.some.injEq, Prod.mk.injEq] at h
        obtain ⟨ha, he, hc⟩ := h
        subst ha
        rw [hm, he, hc]

/-- Running the matcher on a sequence chains the continuations
(definitional). -/
theorem mrun_seq (s : List Char) (A B : Rx) (i : Nat) (caps : Caps)
    (k : Nat → Caps → MRes) :
    mrun s (.seq A B) i caps k = mrun s A i caps (fun j c => mrun s B j c k) :=
  rfl

/-- The tail of `AUTOSCALE_SECTION_EXPR` is the greedy search for the
last reachable `end` token. -/
theorem asTail_run (s : List Char) (j : Nat) (c0 : Caps) :
    mrun s asTail j c0 (fun e c => some (e, c)) =
      tryStar
        (fun j2 => if endTokenAt s j2 = true then some (j2 + 3, (some (j, j2) : Caps)) else none)
        j ((s.drop j).takeWhile asBody).length := by
  simp only [asTail, mrun]
  have hfun : ∀ j2 : Nat,
      (if wordBoundaryAt s j2 = true then
        if endLit.isPrefixOf (List.drop j2 s) = true then
          if wordBoundaryAt s (j2 + endLit.length) = true then
            some (j2 + endLit.length, (some (j, j2) : Caps)) else none
        else none
      else none) =
      (if endTokenAt s j2 = true then some (j2 + 3, (some (j, j2) : Caps)) else none) := by
    intro j2
    cases hb1 : wordBoundaryAt s j2 <;>
      cases hp : endLit.isPrefixOf (List.drop j2 s) <;>
        cases hb2 : wordBoundaryAt s (j2 + 3) <;>
          simp [endTokenAt, hb1, hp, hb2, show endLit.length = 3 from rfl]
  simp only [hfun]

/-- Characterization of a successful run of the tail: the capture ends at
an `end` token, and no later position reachable through the capture's
character class carries an `end` token (the capture is greedy). -/
theorem asTail_char (s : List Char) (j : Nat) (c0 : Caps) (r : Nat × Caps)
    (h : mrun s asTail j c0 (fun e c => some (e, c)) = some r) :
    ∃ b, r = (b + 3, some (j, b)) ∧ j ≤ b ∧ endTokenAt s b = true ∧
      ∀ p, b < p → p ≤ j + ((s.drop j).takeWhile asBody).length →
        endTokenAt s p = false := by
  rw [asTail_run] at h
  obtain ⟨jj, hjn, hk, hmax⟩ := tryStar_max _ _ _ _ h
  by_cases he : endTokenAt s (j + jj) = true
  · rw [if_pos he] at hk
    refine ⟨j + jj, ?_, by omega, he, ?_⟩
    · injection hk with h'
      exact h'.symm
    · intro p hp1 hp2
      have hkp := hmax (p - j) (by omega) (by omega)
      rw [show j + (p - j) = p by omega] at hkp
      by_cases hep : endTokenAt s p = true
      · rw [if_pos hep] at hkp
        exact absurd hkp (by simp)
      · simpa using hep
  · rw [if_neg he] at hk
    exact absurd hk (by simp)

/-- C1 amended: the region `getSlaveConfig` extracts from is the greedy
capture of `AUTOSCALE_SECTION_EXPR`: it ends at an `end` token, and no
later `end` token is reachable through the capture's character class —
i.e. the capture runs to the LAST `end` token of the text that is not
separated from the section start by `\r`/U+2028/U+2029, not to the next
bare `end` line. -/
theorem autoScale_capture_greedy (base : List Char) (st e a b : Nat)
    (h : rexec AUTOSCALE_SECTION_EXPR base = some (st, e, some (a, b))) :
    autoScaleSectionOf base = some (capSlice base (a, b)) ∧
    endTokenAt base b = true ∧
    ∀ p, b < p → p ≤ a + ((base.drop a).takeWhile asBody).length →
      endTokenAt base p = false := by
  have hsec : autoScaleSectionOf base = some (capSlice base (a, b)) := by
    unfold autoScaleSectionOf execGroup1
    rw [h]
  unfold rexec at h
  have hm := execAux_ex AUTOSCALE_SECTION_EXPR base _ _ _ _ _ h
  rw [show AUTOSCALE_SECTION_EXPR = .seq asHead asTail from rfl, mrun_seq] at hm
  obtain ⟨j, c, hk⟩ := mrun_ex0 base asHead st none _ _ hm
  obtain ⟨b0, hr, hjb, hend, hmax⟩ := asTail_char base j c _ hk
  simp only [Prod.mk.injEq, Option.some.injEq] at hr
  obtain ⟨he, haj, hbb⟩ := hr
  subst haj
  subst hbb
  exact ⟨hsec, hend, hmax⟩

/-- Witness for the amended C1 on `leakBase`: the capture ends at the
last `end` token (position 88), and position 89 — within reach of the
capture class — carries none. -/
theorem autoScale_capture_greedy_witness :
    autoScaleSectionOf leakBase = some (capSlice leakBase (25, 88)) ∧
    endTokenAt leakBase 88 = true ∧
    endTokenAt leakBase 89 = false := by
  have happ := autoScale_capture_greedy leakBase 0 91 25 88 (by decide)
  exact ⟨happ.1, happ.2.1, happ.2.2 89 (by decide) (by decide)⟩

/-- C1 counterexample: in `leakBase` the auto-scale section as the claim
delimits it (header line to next bare `end` line) contains no psksecret,
yet `getSlaveConfig` succeeds and its rendered config uses the
`set psksecret leaked` line located outside that section. -/
theorem autoScale_section_leak :
    hasSubstr (spec_autoScaleSection leakBase) ("psksecret".data) = false ∧
    (getSlaveConfig ⟨trivialPlatform, leakBase⟩
        (some ("10.0.0.1".data)) (some ("https://cb".data))).toOption.map
      (fun cfg => hasSubstr cfg ("set psksecret leaked".data)) = some true := by
  decide

/-! ## JSON round-trip -/

theorem foldr_esc_append :
    ∀ (s t x : List Char),
      (s.foldr (fun c acc => jsonEscapeChar c ++ acc) t) ++ x =
        s.foldr (fun c acc => jsonEscapeChar c ++ acc) (t ++ x) := by
  intro s t x
  induction s with
  | nil => rfl
  | cons c u ih => simp [List.foldr_cons, List.append_assoc, ih]

theorem unhex_toHex : ∀ n, n < 16 → unhexDigit (toHexDigit n) = n := by
  decide

theorem pj_quote (rest acc : List Char) :
    parseJstrAux ('"' :: rest) acc = some (acc.reverse, rest) := by
  rw [parseJstrAux.eq_def]
  simp

theorem pj_esc_quote (rest acc : List Char) :
    parseJstrAux ('\\' :: '"' :: rest) acc = parseJstrAux rest ('"' :: acc) := by
  rw [parseJstrAux.eq_def]
  simp

theorem pj_esc_bslash (rest acc : List Char) :
    parseJstrAux ('\\' :: '\\' :: rest) acc = parseJstrAux rest ('\\' :: acc) := by
  rw [parseJstrAux.eq_def]
  simp

theorem pj_esc_b (rest acc : List Char) :
    parseJstrAux ('\\' :: 'b' :: rest) acc = parseJstrAux rest (Char.ofNat 8 :: acc) := by
  rw [parseJstrAux.eq_def]
  simp

theorem pj_esc_t (rest acc : List Char) :
    parseJstrAux ('\\' :: 't' :: rest) acc = parseJstrAux rest ('\t' :: acc) := by
  rw [parseJstrAux.eq_def]
  simp

theorem pj_esc_n (rest acc : List Char) :
    parseJstrAux ('\\' :: 'n' :: rest) acc = parseJstrAux rest ('\n' :: acc) := by
  rw [parseJstrAux.eq_def]
  simp

theorem pj_esc_f (rest acc : List Char) :
    parseJstrAux ('\\' :: 'f' :: rest) acc = parseJstrAux rest (Char.ofNat 12 :: acc) := by
  rw [parseJstrAux.eq_def]
  simp

theorem pj_esc_r (rest acc : List Char) :
    parseJstrAux ('\\' :: 'r' :: rest) acc = parseJstrAux rest ('\r' :: acc) := by
  rw [parseJstrAux.eq_def]
  simp

theorem pj_esc_u (h1 h2 h3 h4 : Char) (rest acc : List Char) :
    parseJstrAux ('\\' :: 'u' :: h1 :: h2 :: h3 :: h4 :: rest) acc =
      parseJstrAux rest
        (Char.ofNat (((unhexDigit h1 * 16 + unhexDigit h2) * 16 + unhexDigit h3) * 16 +
          unhexDigit h4) :: acc) := by
  rw [parseJstrAux.eq_def]
  simp

theorem pj_plain (c : Char) (hq : ¬c = '"') (hb : ¬c = '\\') (rest acc : List Char) :
    parseJstrAux (c :: rest) acc = parseJstrAux rest (c :: acc) := by
  rw [parseJstrAux.eq_def]
  simp [hq, hb]

/-- Decoding undoes `jsonEscapeChar`-encoding: parsing the escaped text
of `v` followed by a closing quote yields `v` and the remainder. -/
theorem parseJstrAux_roundtrip :
    ∀ (v acc rest : List Char),
      parseJstrAux (v.foldr (fun c a => jsonEscapeChar c ++ a) ('"' :: rest)) acc =
        some (acc.reverse ++ v, rest) := by
  intro v
  induction v with
  | nil =>
      intro acc rest
      rw [List.foldr_nil, pj_quote]
      simp
  | cons c v' ih =>
      intro acc rest
      rw [List.foldr_cons]
      by_cases h1 : c = '"'
      · subst h1
        rw [show jsonEscapeChar '"' = ['\\', '"'] from rfl]
        simp only [List.cons_append, List.nil_append]
        rw [pj_esc_quote, ih]
        simp
      · by_cases h2 : c = '\\'
        · subst h2
          rw [show jsonEscapeChar '\\' = ['\\', '\\'] from rfl]
          simp only [List.cons_append, List.nil_append]
          rw [pj_esc_bslash, ih]
          simp
        · by_cases h3 : c = Char.ofNat 8
          · subst h3
            rw [show jsonEscapeChar (Char.ofNat 8) = ['\\', 'b'] from rfl]
            simp only [List.cons_append, List.nil_append]
            rw [pj_esc_b, ih]
            simp
          · by_cases h4 : c = '\t'
            · subst h4
              rw [show jsonEscapeChar '\t' = ['\\', 't'] from rfl]
              simp only [List.cons_append, List.nil_append]
              rw [pj_esc_t, ih]
              simp
            · by_cases h5 : c = '\n'
              · subst h5
                rw [show jsonEscapeChar '\n' = ['\\', 'n'] from rfl]
                simp only [List.cons_append, List.nil_append]
                rw [pj_esc_n, ih]
                simp
              · by_cases h6 : c = Char.ofNat 12
                · subst h6
                  rw [show jsonEscapeChar (Char.ofNat 12) = ['\\', 'f'] from rfl]
                  simp only [List.cons_append, List.nil_append]
                  rw [pj_esc_f, ih]
                  simp
                · by_cases h7 : c = '\r'
                  · subst h7
                    rw [show jsonEscapeChar '\r' = ['\\', 'r'] from rfl]
                    simp only [List.cons_append, List.nil_append]
                    rw [pj_esc_r, ih]
                    simp
                  · by_cases h8 : c.toNat < 32
                    · have hdiv : c.toNat / 16 < 16 := by omega
                      have hmod : c.toNat % 16 < 16 := by omega
                      have hesc : jsonEscapeChar c =
                          ['\\', 'u', '0', '0', toHexDigit (c.toNat / 16),
                            toHexDigit (c.toNat % 16)] := by
                        simp [jsonEscapeChar, h1, h2, h3, h4, h5, h6, h7, h8]
                      have e : ((unhexDigit '0' * 16 + unhexDigit '0') * 16 +
                          unhexDigit (toHexDigit (c.toNat / 16))) * 16 +
                          unhexDigit (toHexDigit (c.toNat % 16)) = c.toNat := by
                        rw [show unhexDigit '0' = 0 from rfl,
                          unhex_toHex _ hdiv, unhex_toHex _ hmod]
                        omega
                      rw [hesc]
                      simp only [List.cons_append, List.nil_append]
                      rw [pj_esc_u, e, Char.ofNat_toNat, ih]
                      simp
                    · have hesc : jsonEscapeChar c = [c] := by
                        simp [jsonEscapeChar, h1, h2, h3, h4, h5, h6, h7, h8]
                      rw [hesc]
                      simp only [List.cons_append, List.nil_append]
                      rw [pj_plain c h1 h2, ih]
                      simp

/-- Parsing a single serialized `"key":"value"` field up to the closing
brace. -/
theorem parseFields_single (fuel : Nat) (k v : List Char) :
    parseFieldsAux (fuel + 1)
      (jsonQuoteStr k ++ (':' :: (jsonQuoteStr v ++ [braceR]))) = some [(k, v)] := by
  have hk : jsonQuoteStr k ++ (':' :: (jsonQuoteStr v ++ [braceR])) =
      '"' :: (k.foldr (fun c a => jsonEscapeChar c ++ a)
        ('"' :: (':' :: (jsonQuoteStr v ++ [braceR])))) := by
    simp [jsonQuoteStr, List.cons_append, foldr_esc_append]
  have hv : jsonQuoteStr v ++ [braceR] =
      '"' :: (v.foldr (fun c a => jsonEscapeChar c ++ a) ('"' :: [braceR])) := by
    simp [jsonQuoteStr, List.cons_append, foldr_esc_append]
  rw [hk]
  rw [parseFieldsAux]
  simp only [reduceIte]
  rw [parseJstrAux_roundtrip k [] (':' :: (jsonQuoteStr v ++ [braceR]))]
  simp only [List.reverse_nil, List.nil_append]
  rw [hv]
  simp only [reduceIte]
  rw [parseJstrAux_roundtrip v [] [braceR]]
  simp only [List.reverse_nil, List.nil_append]
  simp [braceR]

/-- A serialized object that continues with something other than an
immediate closing brace is parsed by the field parser, with fuel the
length of the remainder plus two. -/
theorem parseJsonObj_cons (d : Char) (rest : List Char) (hd : ¬d = braceR) :
    parseJsonObj (braceL :: d :: rest) = parseFieldsAux (rest.length + 1 + 1) (d :: rest) := by
  rw [parseJsonObj.eq_def]
  simp [hd]

/-- C6: the serialized heartbeat response parses back to exactly the
object with the `master-ip` key bound to the master ip when one is known
(truthy), and to the empty object otherwise. -/
theorem responseToHeartBeat_contract (masterIp : Option (List Char)) :
    parseJsonObj (responseToHeartBeat masterIp) =
      some (if jsTruthy masterIp
            then [(("master-ip").data, masterIp.getD [])]
            else []) := by
  rcases masterIp with _ | v
  · decide
  · rcases hv : v.isEmpty with _ | _
    · have htr : jsTruthy (some v) = true := by simp [jsTruthy, hv]
      have hshape : responseToHeartBeat (some v) =
          braceL :: (jsonQuoteStr (("master-ip").data) ++
            (':' :: (jsonQuoteStr v ++ [braceR]))) := by
        simp [responseToHeartBeat, htr, jsonStringify, jsonFields, jsonAtom,
          List.append_assoc, List.cons_append]
      have hq : jsonQuoteStr (("master-ip").data) ++ (':' :: (jsonQuoteStr v ++ [braceR])) =
          '"' :: ((("master-ip").data).foldr (fun c a => jsonEscapeChar c ++ a)
            ('"' :: (':' :: (jsonQuoteStr v ++ [braceR])))) := by
        simp [jsonQuoteStr, List.cons_append, foldr_esc_append]
      rw [hshape, hq, parseJsonObj_cons _ _ (by decide), ← hq, parseFields_single, htr]
      simp
    · have htr : jsTruthy (some v) = false := by simp [jsTruthy, hv]
      have hnil : v = [] := by
        rcases v with _ | _
        · rfl
        · simp [List.isEmpty] at hv
      subst hnil
      decide

/-! ## Single literal substitution (C5) -/

theorem applyReplStep_plain (matched before after : List Char) (ng : Nat)
    (grp : Option (List Char)) (c : Char) (rest : List Char) (hc : ¬c = '$') :
    applyReplStep matched before after ng grp c rest = ([c], rest) := by
  simp [applyReplStep, hc]

theorem applyReplAux_no_dollar (matched before after : List Char) (ng : Nat)
    (grp : Option (List Char)) :
    ∀ (tmpl : List Char) (fuel : Nat), tmpl.length ≤ fuel →
      (∀ ch ∈ tmpl, ¬ch = '$') →
      applyReplAux matched before after ng grp fuel tmpl = tmpl := by
  intro tmpl
  induction tmpl with
  | nil =>
      intro fuel _ _
      rcases fuel with _ | f <;> rfl
  | cons c rest ih =>
      intro fuel hlen hd
      rcases fuel with _ | f
      · simp at hlen
      · have hc : ¬c = '$' := hd c (by simp)
        have hstep : applyReplAux matched before after ng grp (f + 1) (c :: rest) =
            c :: applyReplAux matched before after ng grp f rest := by
          rw [applyReplAux.eq_def]
          simp [applyReplStep_plain matched before after ng grp c rest hc]
        rw [hstep]
        have hlen' : rest.length ≤ f := by
          simp only [List.length_cons] at hlen
          omega
        rw [ih f hlen' (fun ch hm => hd ch (by simp [hm]))]

theorem applyRepl_no_dollar (matched before after : List Char) (ng : Nat)
    (grp : Option (List Char)) (tmpl : List Char) (hd : ∀ ch ∈ tmpl, ¬ch = '$') :
    applyRepl matched before after ng grp tmpl = tmpl :=
  applyReplAux_no_dollar matched before after ng grp tmpl tmpl.length (Nat.le_refl _) hd

theorem two_mem_le_length {α : Type} {a b : α} {l : List α}
    (ha : a ∈ l) (hb : b ∈ l) (hne : a ≠ b) : 2 ≤ l.length := by
  rcases l with _ | ⟨x, _ | ⟨y, t⟩⟩
  · simp at ha
  · simp at ha hb
    subst ha
    subst hb
    exact absurd rfl hne
  · simp only [List.length_cons]
    omega

/-- A token occurring exactly once occurs at a single position. -/
theorem occCount_unique (s tok : List Char) (h1 : occCount s tok = 1)
    {i j : Nat} (hi : i ≤ s.length) (hj : j ≤ s.length)
    (hmi : tok.isPrefixOf (s.drop i) = true) (hmj : tok.isPrefixOf (s.drop j) = true) :
    i = j := by
  by_contra hne
  have hmem_i : i ∈ (List.range (s.length + 1)).filter (fun p => tok.isPrefixOf (s.drop p)) := by
    rw [List.mem_filter, List.mem_range]
    exact ⟨by omega, hmi⟩
  have hmem_j : j ∈ (List.range (s.length + 1)).filter (fun p => tok.isPrefixOf (s.drop p)) := by
    rw [List.mem_filter, List.mem_range]
    exact ⟨by omega, hmj⟩
  have h2 := two_mem_le_length hmem_i hmem_j hne
  rw [occCount] at h1
  omega

/-- If the token matches at `q`, the leftmost match exists at some
position no later than `q`. -/
theorem firstLitPos_exists (tok : List Char) :
    ∀ (s : List Char) (q : Nat), tok.isPrefixOf (s.drop q) = true →
      ∃ j, j ≤ q ∧ firstLitPos tok s = some j ∧ tok.isPrefixOf (s.drop j) = true := by
  intro s
  induction s with
  | nil =>
      intro q hq
      rcases tok with _ | ⟨c, t⟩
      · exact ⟨0, Nat.zero_le _, rfl, by simp [List.isPrefixOf]⟩
      · rw [List.drop_nil] at hq
        simp [List.isPrefixOf] at hq
  | cons c t ih =>
      intro q hq
      by_cases hp : tok.isPrefixOf (c :: t) = true
      · exact ⟨0, Nat.zero_le _, by simp [firstLitPos, hp], by simpa using hp⟩
      · rcases q with _ | q'
        · rw [List.drop_zero] at hq
          exact absurd hq hp
        · have hq' : tok.isPrefixOf (t.drop q') = true := by
            simpa [List.drop_succ_cons] using hq
          obtain ⟨j, hj, hfp, hpj⟩ := ih q' hq'
          refine ⟨j + 1, by omega, ?_, ?_⟩
          · simp [firstLitPos, hp, hfp]
          · simpa [List.drop_succ_cons] using hpj

/-- C5 amended: when the base config holds exactly one
`${CALLBACK_URL}` token and the callback URL contains no `$` character,
`getMasterConfig` returns the base config with exactly that token
replaced by the callback URL and all other characters preserved. -/
theorem getMasterConfig_single_subst {σ : Type} (h : AutoscaleHandler σ)
    (p rest cb : List Char)
    (hbase : h.baseConfig = p ++ (CALLBACK_URL_TOKEN ++ rest))
    (honce : occCount h.baseConfig CALLBACK_URL_TOKEN = 1)
    (hnd : ∀ ch ∈ cb, ¬ch = '$') :
    getMasterConfig h cb = p ++ (cb ++ rest) := by
  rw [hbase] at honce
  have hmatch : CALLBACK_URL_TOKEN.isPrefixOf
      ((p ++ (CALLBACK_URL_TOKEN ++ rest)).drop p.length) = true := by
    rw [List.drop_left]
    exact isPrefixOf_append_self _ _
  obtain ⟨j, hj, hfp, hpj⟩ := firstLitPos_exists CALLBACK_URL_TOKEN _ _ hmatch
  have hlen : (p ++ (CALLBACK_URL_TOKEN ++ rest)).length =
      p.length + (CALLBACK_URL_TOKEN.length + rest.length) := by
    simp
  have hjp : j = p.length :=
    occCount_unique _ _ honce (by omega) (by omega) hpj hmatch
  subst hjp
  have hrepl : ∀ (s : List Char) (i : Nat),
      firstLitPos CALLBACK_URL_TOKEN s = some i →
      jsReplaceFirstLit s CALLBACK_URL_TOKEN cb =
        s.take i ++
          applyRepl CALLBACK_URL_TOKEN (s.take i) (s.drop (i + CALLBACK_URL_TOKEN.length))
            0 none cb ++
          s.drop (i + CALLBACK_URL_TOKEN.length) := by
    intro s i hi
    unfold jsReplaceFirstLit
    rw [hi]
  unfold getMasterConfig
  rw [hbase, hrepl _ _ hfp]
  have htake : (p ++ (CALLBACK_URL_TOKEN ++ rest)).take p.length = p :=
    List.take_left p _
  have hdrop : (p ++ (CALLBACK_URL_TOKEN ++ rest)).drop (p.length + CALLBACK_URL_TOKEN.length) = rest := by
    rw [← List.append_assoc]
    rw [show p.length + CALLBACK_URL_TOKEN.length = (p ++ CALLBACK_URL_TOKEN).length by simp]
    exact List.drop_left _ _
  rw [htake, hdrop, applyRepl_no_dollar _ _ _ _ _ _ hnd]
  simp [List.append_assoc]

/-- Witness for the amended C5 on a concrete template and URL. -/
theorem getMasterConfig_single_subst_witness :
    getMasterConfig
      ⟨trivialPlatform, ("config system\nset callback-url ${CALLBACK_URL}\nend\n").data⟩
      (("https://cb.example/fgt").data) =
      ("config system\nset callback-url ").data ++
        ((("https://cb.example/fgt").data) ++ ("\nend\n").data) :=
  getMasterConfig_single_subst _
    (("config system\nset callback-url ").data) (("\nend\n").data)
    (("https://cb.example/fgt").data)
    (by decide) (by decide) (by decide)

/-- C5 counterexample: with `callbackUrl = "$&"`, the replacement is not
the `callbackUrl` text — `String.prototype.replace` expands `$&` to the
matched placeholder, so the output differs from the claimed
`"a $& b"`. -/
theorem getMasterConfig_dollar_pattern :
    getMasterConfig ⟨trivialPlatform, ("a ${CALLBACK_URL} b").data⟩ ("$&".data) =
      ("a ${CALLBACK_URL} b").data ∧
    (getMasterConfig ⟨trivialPlatform, ("a ${CALLBACK_URL} b").data⟩ ("$&".data) ==
      ("a $& b").data) = false := by
  decide

end Fgas
